import Mathlib

/-!
# Verification of the object-measurement pipeline

A shallow embedding of `measure_object` from `ruler_bkend.py`
(repository `Object-measurement-using-computer-vision`), together with
theorems settling the specification's claims about it.

The OpenCV primitives the script calls (`imread`, `cvtColor`,
`GaussianBlur`, `threshold`, `findContours`, `boundingRect`,
`contourArea`, `minAreaRect`) are pure library calls from the script's
point of view; they are modelled as fields of a record `CVLib`, so every
theorem is quantified over an arbitrary library behaviour.  Python floats
are modelled as rationals; float division by zero, which raises
`ZeroDivisionError` in Python, is modelled with `Except`.  The drawing
calls (`cv2.drawContours`, `cv2.putText`) append records to an
annotation list attached to the output canvas; each record carries the
contour it annotates and, for the dimension labels, the numeric value
rendered (the script formats it with one decimal digit) and its unit.
-/

namespace Ruler

/-- An image: a grid of pixel values (content is only ever inspected
through the library primitives). -/
abbrev Image := List (List Nat)

/-- A single-channel image (result of grayscale / blur / threshold). -/
abbrev GImage := List (List Nat)

/-- A contour: the ordered outer-boundary points of one connected
region, as returned by `cv2.findContours`. -/
abbrev Contour := List (Int × Int)

/-- A rotated rectangle as returned by `cv2.minAreaRect`: center,
size (width, height) and rotation angle. -/
structure RotRect where
  cx : ℚ
  cy : ℚ
  w : ℚ
  h : ℚ
  angle : ℚ
deriving DecidableEq, Repr

/-- The vision-library interface used by `measure_object`.  Each field
models the corresponding OpenCV call as an arbitrary pure function. -/
structure CVLib where
  imread : String → Option Image
  cvtColor : Image → GImage
  gaussianBlur : GImage → GImage
  threshold : GImage → GImage
  findContours : GImage → List Contour
  boundingRect : Contour → Int × Int × Int × Int
  contourArea : Contour → ℚ
  minAreaRect : Contour → RotRect

/-- Unit of a rendered dimension label: pixels or millimeters. -/
inductive UnitKind where
  | px
  | mm
deriving DecidableEq, Repr

/-- One annotation drawn on the output image.

* `refBox c` — the green `cv2.drawContours` box around the reference
  object's min-area rectangle;
* `refLabel c` — the green `"Reference Object"` text;
* `objBox c` — the red `cv2.drawContours` box around a measured object;
* `widthLabel c u v` / `heightLabel c u v` — the blue `"Width: ..."` /
  `"Height: ..."` texts, carrying the numeric value `v` and unit `u`. -/
inductive Ann where
  | refBox (c : Contour)
  | refLabel (c : Contour)
  | objBox (c : Contour)
  | widthLabel (c : Contour) (u : UnitKind) (v : ℚ)
  | heightLabel (c : Contour) (u : UnitKind) (v : ℚ)
deriving DecidableEq, Repr

/-- The contour an annotation belongs to. -/
def Ann.contour : Ann → Contour
  | .refBox c => c
  | .refLabel c => c
  | .objBox c => c
  | .widthLabel c _ _ => c
  | .heightLabel c _ _ => c

/-- The output image: the copied base pixels plus the annotations drawn
on it, in drawing order. -/
structure Canvas where
  base : Image
  anns : List Ann
deriving DecidableEq, Repr

/-- The local buffers of one run of `measure_object`: the loaded image,
the derived grayscale / blurred / thresholded images, and the output
canvas.  The drawing steps may only update `output`. -/
structure PState where
  image : Image
  gray : GImage
  blurred : GImage
  thresh : GImage
  output : Canvas
deriving DecidableEq, Repr

/-- Append one annotation to the output canvas (models one
`cv2.drawContours` / `cv2.putText` call on `output`). -/
def draw (a : Ann) (s : PState) : PState :=
  { s with output := { s.output with anns := s.output.anns ++ [a] } }

/-- The `x` field of `cv2.boundingRect c`. -/
def bbx (lib : CVLib) (c : Contour) : Int :=
  (lib.boundingRect c).1

/-- `sorted(contours, key=lambda c: cv2.boundingRect(c)[0])`: a stable
sort by the bounding-box x-coordinate (Python's `sorted` is stable;
`List.insertionSort` on the key's `≤` is extensionally the same
function). -/
def sortByX (lib : CVLib) (cs : List Contour) : List Contour :=
  cs.insertionSort (fun a b => bbx lib a ≤ bbx lib b)

/-- `width, height = rect[1]`, then `if width < height: width, height =
height, width` — normalize so the reported width is the larger
dimension. -/
def normWH (r : RotRect) : ℚ × ℚ :=
  if r.w < r.h then (r.h, r.w) else (r.w, r.h)

/-- The loop body for one remaining contour: skip it when its area is
below 100, otherwise fit the min-area rectangle, normalize, draw the red
box and render the two dimension labels — in millimeters when a
calibration ratio is available (failing like Python's float division
when that ratio is zero), in pixels otherwise. -/
def drawObject (lib : CVLib) (ppm : Option ℚ) (c : Contour) (s : PState) :
    Except Unit PState :=
  if lib.contourArea c < 100 then .ok s
  else
    let rect := lib.minAreaRect c
    let wh := normWH rect
    let s := draw (.objBox c) s
    match ppm with
    | some r =>
        if r = 0 then .error ()
        else .ok (draw (.heightLabel c .mm (wh.2 / r))
                   (draw (.widthLabel c .mm (wh.1 / r)) s))
    | none =>
        .ok (draw (.heightLabel c .px wh.2)
              (draw (.widthLabel c .px wh.1) s))

/-- `for i, contour in enumerate(contours): ...` over the remaining
contours. -/
def processContours (lib : CVLib) (ppm : Option ℚ) :
    List Contour → PState → Except Unit PState
  | [], s => .ok s
  | c :: rest, s => (drawObject lib ppm c s).bind (processContours lib ppm rest)

/-- The `if len(contours) > 0:` block of `measure_object`, taking the
raw contour list returned by `cv2.findContours`.  When both calibration
inputs are present the first sorted contour is taken as the reference:
`pixels_per_mm = known_width / ref_object_width_mm` is computed (a
Python `ZeroDivisionError` when the denominator is zero — the division
happens before the reference is drawn), the reference is drawn and
labelled, and the remaining contours form the working set. -/
def afterContours (lib : CVLib) (known_width ref_object_width_mm : Option ℚ)
    (cs : List Contour) (s0 : PState) : Except Unit PState :=
  if cs.length > 0 then
    let sorted := sortByX lib cs
    match known_width, ref_object_width_mm with
    | some kw, some rw =>
        match sorted with
        | [] => .ok s0
        | ref :: rest =>
            if rw = 0 then .error ()
            else
              let pixels_per_mm := kw / rw
              let s1 := draw (.refLabel ref) (draw (.refBox ref) s0)
              processContours lib (some pixels_per_mm) rest s1
    | _, _ => processContours lib none sorted s0
  else .ok s0

/-- The outcome of one call: the lines printed and either the final
buffer state (`Except.ok (some s)`, whose `output` is the returned
image), `Except.ok none` for Python's `return None`, or `Except.error`
for an uncaught exception. -/
structure RunResult where
  printed : List String
  result : Except Unit (Option PState)
deriving Repr

/-- `measure_object(image_path, known_width, ref_object_width_mm)` from
`ruler_bkend.py`: load the image (reporting failure and returning
`None` when it cannot be loaded), derive grayscale / blurred /
thresholded images, find external contours, copy the image into
`output`, and annotate it via `afterContours`. -/
def measure_object (lib : CVLib) (image_path : String)
    (known_width ref_object_width_mm : Option ℚ) : RunResult :=
  match lib.imread image_path with
  | none =>
      { printed := ["Error: Could not load image from " ++ image_path]
        result := .ok none }
  | some image =>
      let gray := lib.cvtColor image
      let blurred := lib.gaussianBlur gray
      let thresh := lib.threshold blurred
      let contours := lib.findContours thresh
      let output : Canvas := { base := image, anns := [] }
      let s0 : PState :=
        { image := image, gray := gray, blurred := blurred,
          thresh := thresh, output := output }
      { printed := []
        result := (afterContours lib known_width ref_object_width_mm
                    contours s0).map some }

/-- Contours drawn as the reference object (green box). -/
def refBoxesOf (anns : List Ann) : List Contour :=
  anns.filterMap fun a =>
    match a with
    | .refBox c => some c
    | _ => none

/-- Contours appearing in the measurement annotations (red box or a
dimension label). -/
def measuredOf (anns : List Ann) : List Contour :=
  anns.filterMap fun a =>
    match a with
    | .objBox c => some c
    | .widthLabel c _ _ => some c
    | .heightLabel c _ _ => some c
    | _ => none

/-- Whether an annotation is one of the two reference-object marks. -/
def Ann.isRef : Ann → Bool
  | .refBox _ => true
  | .refLabel _ => true
  | _ => false

/-- Characterization of every annotation the measurement loop can
append, given the working set `cs` and the calibration ratio `ppm`: it
is never a reference mark, its contour comes from `cs` and passed the
area filter, and its label values are the normalized min-area-rectangle
dimensions, divided by the ratio when one is present. -/
def AnnOk (lib : CVLib) (ppm : Option ℚ) (cs : List Contour) : Ann → Prop
  | .refBox _ => False
  | .refLabel _ => False
  | .objBox c => c ∈ cs ∧ 100 ≤ lib.contourArea c
  | .widthLabel c u v => c ∈ cs ∧ 100 ≤ lib.contourArea c ∧
      (match ppm with
       | some r => u = .mm ∧ v = (normWH (lib.minAreaRect c)).1 / r
       | none => u = .px ∧ v = (normWH (lib.minAreaRect c)).1)
  | .heightLabel c u v => c ∈ cs ∧ 100 ≤ lib.contourArea c ∧
      (match ppm with
       | some r => u = .mm ∧ v = (normWH (lib.minAreaRect c)).2 / r
       | none => u = .px ∧ v = (normWH (lib.minAreaRect c)).2)

/-! ## Concrete test data

A small concrete library instance used to exercise the pipeline at
explicit inputs: a 2×2 test image whose thresholded form yields three
contours at distinct x-offsets — `cL` (leftmost, area 50: below the
noise threshold), `cM` (area 400, min-area rectangle 40×10) and `cR`
(area 900, min-area rectangle 12×30, so its raw width is the smaller
dimension).  `findContours` returns them out of x-order. -/

/-- Test image. -/
def imgT : Image := [[1, 2], [3, 4]]

/-- Leftmost test contour (bounding-box x = 0, area 50). -/
def cL : Contour := [(0, 0), (5, 0), (5, 10), (0, 10)]

/-- Middle test contour (bounding-box x = 40, area 400). -/
def cM : Contour := [(40, 0), (80, 0), (80, 10), (40, 10)]

/-- Rightmost test contour (bounding-box x = 90, area 900). -/
def cR : Contour := [(90, 0), (102, 0), (102, 30), (90, 30)]

/-- The annotations of a run's returned image (empty when the run
returned `None` or raised). -/
def annsOf (r : RunResult) : List Ann :=
  match r.result with
  | .ok (some s) => s.output.anns
  | _ => []

/-- Concrete vision library for the test image. -/
def testLib : CVLib where
  imread := fun p => if p = "ok.jpg" then some imgT else none
  cvtColor := fun i => i.map (List.map (· + 1))
  gaussianBlur := fun i => i.map (List.map (· + 2))
  threshold := fun i => i.map (List.map (· % 2 * 255))
  findContours := fun _ => [cM, cL, cR]
  boundingRect := fun c => ((c.headD (0, 0)).1, (c.headD (0, 0)).2, 10, 10)
  contourArea := fun c => if c = cL then 50 else if c = cM then 400 else 900
  minAreaRect := fun c =>
    if c = cM then ⟨60, 5, 40, 10, 0⟩
    else if c = cR then ⟨96, 15, 12, 30, 5⟩
    else ⟨2, 5, 5, 10, 0⟩

/-! ## Structural lemmas about the pipeline -/

/-- `draw` only appends to the output's annotation list. -/
theorem draw_fields (a : Ann) (s : PState) :
    (draw a s).image = s.image ∧ (draw a s).gray = s.gray ∧
    (draw a s).blurred = s.blurred ∧ (draw a s).thresh = s.thresh ∧
    (draw a s).output.base = s.output.base ∧
    (draw a s).output.anns = s.output.anns ++ [a] :=
  ⟨rfl, rfl, rfl, rfl, rfl, rfl⟩

/-- The normalized height never exceeds the normalized width. -/
theorem normWH_snd_le_fst (r : RotRect) : (normWH r).2 ≤ (normWH r).1 := by
  unfold normWH
  split
  · exact le_of_lt (by assumption)
  · exact le_of_not_lt (by assumption)

/-- `AnnOk` is monotone in the working set. -/
theorem AnnOk.mono {lib : CVLib} {ppm : Option ℚ} {cs cs' : List Contour}
    {a : Ann} (hsub : ∀ x ∈ cs, x ∈ cs') (h : AnnOk lib ppm cs a) :
    AnnOk lib ppm cs' a := by
  cases a with
  | refBox c => exact h.elim
  | refLabel c => exact h.elim
  | objBox c => exact ⟨hsub c h.1, h.2⟩
  | widthLabel c u v => exact ⟨hsub c h.1, h.2.1, h.2.2⟩
  | heightLabel c u v => exact ⟨hsub c h.1, h.2.1, h.2.2⟩

/-- What one iteration of the measurement loop can do when it does not
raise: all buffers except the output's annotation list are unchanged,
and the appended annotations satisfy `AnnOk` for the singleton working
set. -/
theorem drawObject_ok {lib : CVLib} {ppm : Option ℚ} {c : Contour}
    {s s' : PState} (h : drawObject lib ppm c s = .ok s') :
    s'.image = s.image ∧ s'.gray = s.gray ∧ s'.blurred = s.blurred ∧
    s'.thresh = s.thresh ∧ s'.output.base = s.output.base ∧
    ∃ t, s'.output.anns = s.output.anns ++ t ∧
      ∀ a ∈ t, AnnOk lib ppm [c] a := by
  unfold drawObject at h
  split at h
  · cases h
    exact ⟨rfl, rfl, rfl, rfl, rfl, [], by simp, by simp⟩
  · rename_i harea
    have harea' : (100 : ℚ) ≤ lib.contourArea c := le_of_not_lt harea
    cases hppm : ppm with
    | some r =>
        rw [hppm] at h
        simp only at h
        split at h
        · cases h
        · rename_i hr
          cases h
          refine ⟨rfl, rfl, rfl, rfl, rfl,
            [.objBox c, .widthLabel c .mm ((normWH (lib.minAreaRect c)).1 / r),
             .heightLabel c .mm ((normWH (lib.minAreaRect c)).2 / r)],
            by simp [draw], ?_⟩
          intro a ha
          simp only [List.mem_cons, List.not_mem_nil, or_false] at ha
          rcases ha with rfl | rfl | rfl
          · exact ⟨by simp, harea'⟩
          · exact ⟨by simp, harea', rfl, rfl⟩
          · exact ⟨by simp, harea', rfl, rfl⟩
    | none =>
        rw [hppm] at h
        simp only at h
        cases h
        refine ⟨rfl, rfl, rfl, rfl, rfl,
          [.objBox c, .widthLabel c .px (normWH (lib.minAreaRect c)).1,
           .heightLabel c .px (normWH (lib.minAreaRect c)).2],
          by simp [draw], ?_⟩
        intro a ha
        simp only [List.mem_cons, List.not_mem_nil, or_false] at ha
        rcases ha with rfl | rfl | rfl
        · exact ⟨by simp, harea'⟩
        · exact ⟨by simp, harea', rfl, rfl⟩
        · exact ⟨by simp, harea', rfl, rfl⟩

/-- What a completed measurement loop can do: all buffers except the
output's annotation list are unchanged, and every appended annotation
satisfies `AnnOk` for the traversed working set. -/
theorem processContours_ok {lib : CVLib} {ppm : Option ℚ} :
    ∀ {cs : List Contour} {s s' : PState},
      processContours lib ppm cs s = .ok s' →
      s'.image = s.image ∧ s'.gray = s.gray ∧ s'.blurred = s.blurred ∧
      s'.thresh = s.thresh ∧ s'.output.base = s.output.base ∧
      ∃ t, s'.output.anns = s.output.anns ++ t ∧
        ∀ a ∈ t, AnnOk lib ppm cs a
  | [], s, s', h => by
      cases h
      exact ⟨rfl, rfl, rfl, rfl, rfl, [], by simp, by simp⟩
  | c :: rest, s, s', h => by
      unfold processContours at h
      cases hd : drawObject lib ppm c s with
      | error e => rw [hd] at h; cases h
      | ok s1 =>
          rw [hd] at h
          simp only [Except.bind] at h
          obtain ⟨hi1, hg1, hb1, ht1, hob1, t1, ha1, hk1⟩ := drawObject_ok hd
          obtain ⟨hi2, hg2, hb2, ht2, hob2, t2, ha2, hk2⟩ := processContours_ok h
          refine ⟨hi2.trans hi1, hg2.trans hg1, hb2.trans hb1, ht2.trans ht1,
            hob2.trans hob1, t1 ++ t2, by rw [ha2, ha1, List.append_assoc], ?_⟩
          intro a ha
          rcases List.mem_append.1 ha with h1 | h2
          · exact (hk1 a h1).mono (by intro x hx; simp at hx; simp [hx])
          · exact (hk2 a h2).mono (by intro x hx; simp [hx])

/-- The measurement loop never raises when no calibration ratio is
present (no division occurs). -/
theorem processContours_none_ok (lib : CVLib) :
    ∀ (cs : List Contour) (s : PState),
      ∃ s', processContours lib none cs s = .ok s'
  | [], s => ⟨s, rfl⟩
  | c :: rest, s => by
      unfold processContours drawObject
      split
      · exact processContours_none_ok lib rest s
      · simp only [Except.bind]
        exact processContours_none_ok lib rest _

/-- Sorting the contours permutes them. -/
theorem sortByX_perm (lib : CVLib) (cs : List Contour) :
    List.Perm (sortByX lib cs) cs :=
  List.perm_insertionSort _ _

/-- The sorted contour list is ordered by bounding-box x-coordinate. -/
theorem sortByX_sorted (lib : CVLib) (cs : List Contour) :
    (sortByX lib cs).Sorted (fun a b => bbx lib a ≤ bbx lib b) := by
  haveI : IsTotal Contour (fun a b => bbx lib a ≤ bbx lib b) :=
    ⟨fun a b => le_total _ _⟩
  haveI : IsTrans Contour (fun a b => bbx lib a ≤ bbx lib b) :=
    ⟨fun _ _ _ h1 h2 => le_trans h1 h2⟩
  exact List.sorted_insertionSort _ _

/-- With pairwise-distinct bounding-box x-coordinates, sorting is
independent of the raw order: any two permuted contour lists sort to
the same list. -/
theorem sortByX_eq_of_perm {lib : CVLib} {cs cs' : List Contour}
    (hperm : List.Perm cs cs')
    (hdist : cs.Pairwise (fun a b => bbx lib a ≠ bbx lib b)) :
    sortByX lib cs = sortByX lib cs' := by
  have hsymm : ∀ {x y : Contour}, bbx lib x ≠ bbx lib y → bbx lib y ≠ bbx lib x :=
    fun h => Ne.symm h
  have hdist' : cs'.Pairwise (fun a b => bbx lib a ≠ bbx lib b) :=
    (hperm.pairwise_iff hsymm).1 hdist
  have hstrict : ∀ (l : List Contour),
      l.Pairwise (fun a b => bbx lib a ≠ bbx lib b) →
      (sortByX lib l).Pairwise (fun a b => bbx lib a < bbx lib b) := by
    intro l hl
    have hl2 : (sortByX lib l).Pairwise (fun a b => bbx lib a ≠ bbx lib b) :=
      (((sortByX_perm lib l).pairwise_iff hsymm).2 hl)
    exact ((sortByX_sorted lib l).and hl2).imp
      (fun h => lt_of_le_of_ne h.1 h.2)
  haveI : IsAntisymm Contour (fun a b => bbx lib a < bbx lib b) :=
    ⟨fun a b h h' => absurd h' (lt_asymm h)⟩
  exact List.eq_of_perm_of_sorted
    ((sortByX_perm lib cs).trans (hperm.trans (sortByX_perm lib cs').symm))
    (hstrict cs hdist) (hstrict cs' hdist')

/-- Case analysis of a completed `afterContours`: buffers other than
the annotation list are unchanged, and the appended annotations are
either empty (no contours), measurement annotations in pixel units (a
calibration input missing), or the two reference marks for the first
sorted contour followed by measurement annotations in millimeters for
the remaining contours. -/
theorem afterContours_ok {lib : CVLib} {kw rw : Option ℚ}
    {cs : List Contour} {s0 s : PState}
    (h : afterContours lib kw rw cs s0 = .ok s) :
    s.image = s0.image ∧ s.gray = s0.gray ∧ s.blurred = s0.blurred ∧
    s.thresh = s0.thresh ∧ s.output.base = s0.output.base ∧
    ((cs = [] ∧ s = s0) ∨
     ((kw = none ∨ rw = none) ∧
      ∃ t, s.output.anns = s0.output.anns ++ t ∧
        ∀ a ∈ t, AnnOk lib none cs a) ∨
     (∃ a b m rest, kw = some a ∧ rw = some b ∧ b ≠ 0 ∧
        sortByX lib cs = m :: rest ∧
        ∃ t, s.output.anns = s0.output.anns ++ [.refBox m, .refLabel m] ++ t ∧
          ∀ x ∈ t, AnnOk lib (some (a / b)) rest x)) := by
  unfold afterContours at h
  split at h
  · rename_i hlen
    have hne : cs ≠ [] := by
      intro hcs; rw [hcs] at hlen; simp at hlen
    cases hkw : kw with
    | none =>
        rw [hkw] at h
        simp only at h
        obtain ⟨h1, h2, h3, h4, h5, t, ht, hk⟩ := processContours_ok h
        exact ⟨h1, h2, h3, h4, h5, Or.inr (Or.inl ⟨Or.inl rfl, t, ht,
          fun a ha => (hk a ha).mono
            (fun x hx => (sortByX_perm lib cs).subset hx)⟩)⟩
    | some a =>
        cases hrw : rw with
        | none =>
            rw [hkw, hrw] at h
            simp only at h
            obtain ⟨h1, h2, h3, h4, h5, t, ht, hk⟩ := processContours_ok h
            exact ⟨h1, h2, h3, h4, h5, Or.inr (Or.inl ⟨Or.inr rfl, t, ht,
              fun x hx => (hk x hx).mono
                (fun y hy => (sortByX_perm lib cs).subset hy)⟩)⟩
        | some b =>
            rw [hkw, hrw] at h
            simp only at h
            cases hsort : sortByX lib cs with
            | nil =>
                have h1 : List.Perm cs (sortByX lib cs) :=
                  (sortByX_perm lib cs).symm
                rw [hsort] at h1
                exact absurd h1.eq_nil hne
            | cons m rest =>
                rw [hsort] at h
                simp only at h
                split at h
                · cases h
                · rename_i hb
                  obtain ⟨h1, h2, h3, h4, h5, t, ht, hk⟩ := processContours_ok h
                  refine ⟨h1.trans rfl, h2.trans rfl, h3.trans rfl,
                    h4.trans rfl, h5.trans rfl, Or.inr (Or.inr
                    ⟨a, b, m, rest, rfl, rfl, hb, rfl, t, ?_, hk⟩)⟩
                  rw [ht]
                  simp [draw, List.append_assoc]
  · rename_i hlen
    cases h
    have : cs = [] := by
      cases cs with
      | nil => rfl
      | cons c cs => simp at hlen
    exact ⟨rfl, rfl, rfl, rfl, rfl, Or.inl ⟨this, rfl⟩⟩

/-- A list of annotations all produced by the measurement loop contains
no reference box. -/
theorem refBoxesOf_eq_nil {lib : CVLib} {ppm : Option ℚ}
    {cs : List Contour} {t : List Ann}
    (hk : ∀ a ∈ t, AnnOk lib ppm cs a) : refBoxesOf t = [] := by
  unfold refBoxesOf
  rw [List.filterMap_eq_nil_iff]
  intro a ha
  cases a with
  | refBox c => exact (hk _ ha).elim
  | refLabel c => rfl
  | objBox c => rfl
  | widthLabel c u v => rfl
  | heightLabel c u v => rfl

/-- Every contour measured by the loop comes from its working set. -/
theorem measuredOf_subset {lib : CVLib} {ppm : Option ℚ}
    {cs : List Contour} {t : List Ann}
    (hk : ∀ a ∈ t, AnnOk lib ppm cs a) :
    ∀ c ∈ measuredOf t, c ∈ cs := by
  intro c hc
  obtain ⟨a, ha, hfa⟩ := List.mem_filterMap.1 hc
  cases a with
  | refBox c0 => exact (hk _ ha).elim
  | refLabel c0 => exact (hk _ ha).elim
  | objBox c0 => cases hfa; exact (hk _ ha).1
  | widthLabel c0 u v => cases hfa; exact (hk _ ha).1
  | heightLabel c0 u v => cases hfa; exact (hk _ ha).1

/-- Inversion of a run that returned an image: the image loaded and the
contour-processing stage completed on the freshly copied output. -/
theorem measure_object_ok_inv {lib : CVLib} {path : String}
    {kw rw : Option ℚ} {s : PState}
    (hr : (measure_object lib path kw rw).result = .ok (some s)) :
    ∃ img, lib.imread path = some img ∧
      afterContours lib kw rw
        (lib.findContours (lib.threshold (lib.gaussianBlur (lib.cvtColor img))))
        { image := img, gray := lib.cvtColor img,
          blurred := lib.gaussianBlur (lib.cvtColor img),
          thresh := lib.threshold (lib.gaussianBlur (lib.cvtColor img)),
          output := { base := img, anns := [] } } = .ok s := by
  unfold measure_object at hr
  cases him : lib.imread path with
  | none => rw [him] at hr; cases hr
  | some img =>
      rw [him] at hr
      simp only at hr
      refine ⟨img, rfl, ?_⟩
      cases haft : afterContours lib kw rw
          (lib.findContours (lib.threshold (lib.gaussianBlur (lib.cvtColor img))))
          { image := img, gray := lib.cvtColor img,
            blurred := lib.gaussianBlur (lib.cvtColor img),
            thresh := lib.threshold (lib.gaussianBlur (lib.cvtColor img)),
            output := { base := img, anns := [] } } with
      | error e => rw [haft] at hr; cases hr
      | ok s1 =>
          rw [haft] at hr
          simp only [Except.map] at hr
          cases hr
          rfl

/-! ## The claims -/

/-- C1: for every image path whose image cannot be loaded,
`measure_object` reports the error to the user, returns an absent
result (`None`) without raising, and produces no annotated output. -/
theorem load_failure_returns_none (lib : CVLib) (path : String)
    (kw rw : Option ℚ) (h : lib.imread path = none) :
    measure_object lib path kw rw =
      { printed := ["Error: Could not load image from " ++ path]
        result := .ok none } := by
  unfold measure_object
  rw [h]

/-- Witness for C1 at a concrete library and missing path. -/
theorem load_failure_returns_none_witness :
    testLib.imread "missing.jpg" = none ∧
    measure_object testLib "missing.jpg" none none =
      { printed := ["Error: Could not load image from missing.jpg"]
        result := .ok none } :=
  ⟨rfl, load_failure_returns_none testLib "missing.jpg" none none rfl⟩

/-- C7: when the image loads but no contours are found, the run
returns a copy of the input image with no annotations, with no error
and no absent result, even when calibration parameters are supplied. -/
theorem no_contours_returns_blank_copy (lib : CVLib) (path : String)
    (kw rw : Option ℚ) (img : Image)
    (h : lib.imread path = some img)
    (hc : lib.findContours (lib.threshold (lib.gaussianBlur (lib.cvtColor img))) = []) :
    measure_object lib path kw rw =
      { printed := []
        result := .ok (some
          { image := img
            gray := lib.cvtColor img
            blurred := lib.gaussianBlur (lib.cvtColor img)
            thresh := lib.threshold (lib.gaussianBlur (lib.cvtColor img))
            output := { base := img, anns := [] } }) } := by
  unfold measure_object
  rw [h]
  simp [hc, afterContours, Except.map]

/-- A variant library whose thresholded test image contains no
contours. -/
def emptyLib : CVLib :=
  { testLib with findContours := fun _ => [] }

/-- Witness for C7: concrete run with calibration supplied and no
contours found. -/
theorem no_contours_returns_blank_copy_witness :
    emptyLib.imread "ok.jpg" = some imgT ∧
    emptyLib.findContours
      (emptyLib.threshold (emptyLib.gaussianBlur (emptyLib.cvtColor imgT))) = [] ∧
    measure_object emptyLib "ok.jpg" (some 100) (some 50) =
      { printed := []
        result := .ok (some
          { image := imgT
            gray := emptyLib.cvtColor imgT
            blurred := emptyLib.gaussianBlur (emptyLib.cvtColor imgT)
            thresh := emptyLib.threshold (emptyLib.gaussianBlur (emptyLib.cvtColor imgT))
            output := { base := imgT, anns := [] } }) } :=
  ⟨rfl, rfl,
    no_contours_returns_blank_copy emptyLib "ok.jpg" (some 100) (some 50) imgT rfl rfl⟩

/-- C10: with both calibration parameters present and at least one
contour detected, the ratio divides by `ref_object_width_mm` with no
zero guard: calling with `ref_object_width_mm = 0` raises an uncaught
division error. -/
theorem zero_ref_width_raises (lib : CVLib) (path : String) (a : ℚ)
    (img : Image) (h : lib.imread path = some img)
    (hne : lib.findContours (lib.threshold (lib.gaussianBlur (lib.cvtColor img))) ≠ []) :
    (measure_object lib path (some a) (some 0)).result = .error () := by
  unfold measure_object
  rw [h]
  simp only
  have hlen : 0 < (lib.findContours
      (lib.threshold (lib.gaussianBlur (lib.cvtColor img)))).length :=
    List.length_pos.2 hne
  obtain ⟨m, rest, hsort⟩ : ∃ m rest,
      sortByX lib (lib.findContours
        (lib.threshold (lib.gaussianBlur (lib.cvtColor img)))) = m :: rest := by
    cases hs : sortByX lib (lib.findContours
        (lib.threshold (lib.gaussianBlur (lib.cvtColor img)))) with
    | nil =>
        have h1 : List.Perm (lib.findContours
            (lib.threshold (lib.gaussianBlur (lib.cvtColor img))))
            (sortByX lib (lib.findContours
              (lib.threshold (lib.gaussianBlur (lib.cvtColor img))))) :=
          (sortByX_perm lib _).symm
        rw [hs] at h1
        exact absurd h1.eq_nil hne
    | cons m rest => exact ⟨m, rest, rfl⟩
  unfold afterContours
  rw [if_pos hlen, hsort]
  simp [Except.map]

/-- Witness for C10: the concrete test image has contours, and the run
with `ref_object_width_mm = 0` raises. -/
theorem zero_ref_width_raises_witness :
    testLib.imread "ok.jpg" = some imgT ∧
    testLib.findContours
      (testLib.threshold (testLib.gaussianBlur (testLib.cvtColor imgT))) ≠ [] ∧
    (measure_object testLib "ok.jpg" (some 100) (some 0)).result = .error () :=
  ⟨rfl, by decide,
    zero_ref_width_raises testLib "ok.jpg" 100 imgT rfl (by decide)⟩

/-- C8: all annotations are drawn on an independent copy of the loaded
image: after a successful run the loaded image, the grayscale, blurred
and thresholded buffers are unchanged, and the output's pixel data is
the loaded image itself, untouched by the annotation steps. -/
theorem annotations_on_copy (lib : CVLib) (path : String)
    (kw rw : Option ℚ) (img : Image) (s : PState)
    (h : lib.imread path = some img)
    (hr : (measure_object lib path kw rw).result = .ok (some s)) :
    s.image = img ∧ s.gray = lib.cvtColor img ∧
    s.blurred = lib.gaussianBlur (lib.cvtColor img) ∧
    s.thresh = lib.threshold (lib.gaussianBlur (lib.cvtColor img)) ∧
    s.output.base = img := by
  obtain ⟨img', him, haft⟩ := measure_object_ok_inv hr
  rw [h] at him
  injection him with him
  subst him
  obtain ⟨h1, h2, h3, h4, h5, _⟩ := afterContours_ok haft
  exact ⟨h1, h2, h3, h4, h5⟩

/-- C6: when either calibration input is absent, no contour is consumed
as a reference (no reference annotation is drawn) and every dimension
label is in pixel units; the run returns an image (never an absent
result or a failure). -/
theorem missing_calibration_pixel_units (lib : CVLib) (path : String)
    (kw rw : Option ℚ) (img : Image)
    (h : lib.imread path = some img)
    (hmiss : kw = none ∨ rw = none) :
    ∃ s, (measure_object lib path kw rw).result = .ok (some s) ∧
      refBoxesOf s.output.anns = [] ∧
      (∀ c u v, Ann.widthLabel c u v ∈ s.output.anns → u = .px) ∧
      (∀ c u v, Ann.heightLabel c u v ∈ s.output.anns → u = .px) := by
  unfold measure_object
  rw [h]
  simp only
  by_cases hlen : 0 <
      (lib.findContours (lib.threshold (lib.gaussianBlur (lib.cvtColor img)))).length
  · have harm : afterContours lib kw rw
        (lib.findContours (lib.threshold (lib.gaussianBlur (lib.cvtColor img))))
        { image := img, gray := lib.cvtColor img,
          blurred := lib.gaussianBlur (lib.cvtColor img),
          thresh := lib.threshold (lib.gaussianBlur (lib.cvtColor img)),
          output := { base := img, anns := [] } } =
        processContours lib none
          (sortByX lib (lib.findContours
            (lib.threshold (lib.gaussianBlur (lib.cvtColor img)))))
          { image := img, gray := lib.cvtColor img,
            blurred := lib.gaussianBlur (lib.cvtColor img),
            thresh := lib.threshold (lib.gaussianBlur (lib.cvtColor img)),
            output := { base := img, anns := [] } } := by
      unfold afterContours
      rw [if_pos hlen]
      rcases hmiss with rfl | rfl
      · rfl
      · cases kw <;> rfl
    obtain ⟨s', hs'⟩ := processContours_none_ok lib _ _
    rw [harm, hs']
    obtain ⟨_, _, _, _, _, t, ht, hk⟩ := processContours_ok hs'
    refine ⟨s', rfl, ?_, ?_, ?_⟩
    · rw [ht]
      simpa using refBoxesOf_eq_nil hk
    · intro c u v hmem
      rw [ht] at hmem
      simp only [List.nil_append] at hmem
      exact (hk _ hmem).2.2.1
    · intro c u v hmem
      rw [ht] at hmem
      simp only [List.nil_append] at hmem
      exact (hk _ hmem).2.2.1
  · have harm : afterContours lib kw rw
        (lib.findContours (lib.threshold (lib.gaussianBlur (lib.cvtColor img))))
        { image := img, gray := lib.cvtColor img,
          blurred := lib.gaussianBlur (lib.cvtColor img),
          thresh := lib.threshold (lib.gaussianBlur (lib.cvtColor img)),
          output := { base := img, anns := [] } } = .ok
        { image := img, gray := lib.cvtColor img,
          blurred := lib.gaussianBlur (lib.cvtColor img),
          thresh := lib.threshold (lib.gaussianBlur (lib.cvtColor img)),
          output := { base := img, anns := [] } } := by
      unfold afterContours
      rw [if_neg hlen]
    rw [harm]
    exact ⟨_, rfl, rfl, by intro c u v hmem; simp at hmem,
      by intro c u v hmem; simp at hmem⟩

/-- Witness for C6 at a concrete run with only `known_width`
supplied. -/
theorem missing_calibration_pixel_units_witness :
    testLib.imread "ok.jpg" = some imgT ∧
    ((some (100 : ℚ) = none) ∨ ((none : Option ℚ) = none)) ∧
    (∃ s, (measure_object testLib "ok.jpg" (some 100) none).result = .ok (some s) ∧
      refBoxesOf s.output.anns = [] ∧
      (∀ c u v, Ann.widthLabel c u v ∈ s.output.anns → u = .px) ∧
      (∀ c u v, Ann.heightLabel c u v ∈ s.output.anns → u = .px)) :=
  ⟨rfl, Or.inr rfl,
    missing_calibration_pixel_units testLib "ok.jpg" (some 100) none imgT rfl
      (Or.inr rfl)⟩

/-- C3: when both calibration inputs are present, every millimeter
label divides the normalized rectangle dimension by exactly
`known_width / ref_object_width_mm`. -/
theorem mm_labels_exact_ratio (lib : CVLib) (path : String) (a b : ℚ)
    (s : PState)
    (hr : (measure_object lib path (some a) (some b)).result = .ok (some s)) :
    (∀ c u v, Ann.widthLabel c u v ∈ s.output.anns →
      u = .mm ∧ v = (normWH (lib.minAreaRect c)).1 / (a / b)) ∧
    (∀ c u v, Ann.heightLabel c u v ∈ s.output.anns →
      u = .mm ∧ v = (normWH (lib.minAreaRect c)).2 / (a / b)) := by
  obtain ⟨img, him, haft⟩ := measure_object_ok_inv hr
  obtain ⟨_, _, _, _, _, hcases⟩ := afterContours_ok haft
  rcases hcases with ⟨hcs, rfl⟩ | ⟨hmiss, t, ht, hk⟩ |
    ⟨a', b', m, rest, ha', hb', hbne, hsort, t, ht, hk⟩
  · exact ⟨by intro c u v hmem; simp at hmem, by intro c u v hmem; simp at hmem⟩
  · rcases hmiss with hbad | hbad <;> cases hbad
  · injection ha' with ha'
    injection hb' with hb'
    subst ha'
    subst hb'
    constructor
    · intro c u v hmem
      rw [ht] at hmem
      simp only [List.nil_append, List.cons_append, List.mem_cons,
        List.mem_append] at hmem
      rcases hmem with hbad | hbad | hmem
      · cases hbad
      · cases hbad
      · exact (hk _ hmem).2.2
    · intro c u v hmem
      rw [ht] at hmem
      simp only [List.nil_append, List.cons_append, List.mem_cons,
        List.mem_append] at hmem
      rcases hmem with hbad | hbad | hmem
      · cases hbad
      · cases hbad
      · exact (hk _ hmem).2.2

/-- Every annotation the measurement loop produces is for a contour
that passed the area filter. -/
theorem AnnOk.area_ge {lib : CVLib} {ppm : Option ℚ} {cs : List Contour}
    {a : Ann} (h : AnnOk lib ppm cs a) :
    100 ≤ lib.contourArea (Ann.contour a) := by
  cases a with
  | refBox c => exact h.elim
  | refLabel c => exact h.elim
  | objBox c => exact h.2
  | widthLabel c u v => exact h.2.1
  | heightLabel c u v => exact h.2.1

/-- C2 (amended): a contour whose area is below 100 px² never appears
as a measured object in the output annotation set — the only
annotations it can receive are the reference-object marks, which are
drawn without an area check when both calibration inputs are present. -/
theorem small_contours_not_measured (lib : CVLib) (path : String)
    (kw rw : Option ℚ) (s : PState) (a : Ann)
    (hr : (measure_object lib path kw rw).result = .ok (some s))
    (ha : a ∈ s.output.anns)
    (hsmall : lib.contourArea (Ann.contour a) < 100) :
    a.isRef = true := by
  obtain ⟨img, him, haft⟩ := measure_object_ok_inv hr
  obtain ⟨_, _, _, _, _, hcases⟩ := afterContours_ok haft
  rcases hcases with ⟨hcs, rfl⟩ | ⟨hmiss, t, ht, hk⟩ |
    ⟨a', b', m, rest, ha', hb', hbne, hsort, t, ht, hk⟩
  · simp at ha
  · rw [ht] at ha
    simp only [List.nil_append] at ha
    exact absurd (hk _ ha).area_ge (not_le.2 hsmall)
  · rw [ht] at ha
    simp only [List.nil_append, List.cons_append, List.mem_cons,
      List.mem_append] at ha
    rcases ha with rfl | rfl | ha
    · rfl
    · rfl
    · exact absurd (hk _ ha).area_ge (not_le.2 hsmall)

/-- C5 (amended): the reported width is at least the reported height in
every pixel-unit label, and in every millimeter-unit label provided the
calibration ratio is positive (a negative ratio — possible because the
calibration inputs are unchecked floats — reverses the order). -/
theorem width_ge_height_reported (lib : CVLib) (path : String)
    (kw rw : Option ℚ) (s : PState)
    (hr : (measure_object lib path kw rw).result = .ok (some s)) :
    (∀ c w hgt, Ann.widthLabel c .px w ∈ s.output.anns →
      Ann.heightLabel c .px hgt ∈ s.output.anns → hgt ≤ w) ∧
    (∀ a b c w hgt, kw = some a → rw = some b → 0 < a / b →
      Ann.widthLabel c .mm w ∈ s.output.anns →
      Ann.heightLabel c .mm hgt ∈ s.output.anns → hgt ≤ w) := by
  obtain ⟨img, him, haft⟩ := measure_object_ok_inv hr
  obtain ⟨_, _, _, _, _, hcases⟩ := afterContours_ok haft
  rcases hcases with ⟨hcs, rfl⟩ | ⟨hmiss, t, ht, hk⟩ |
    ⟨a', b', m, rest, ha', hb', hbne, hsort, t, ht, hk⟩
  · constructor
    · intro c w hgt hw hh
      simp at hw
    · intro a b c w hgt hkw hrw hpos hw hh
      simp at hw
  · constructor
    · intro c w hgt hw hh
      rw [ht] at hw hh
      simp only [List.nil_append] at hw hh
      have h1 := (hk _ hw).2.2.2
      have h2 := (hk _ hh).2.2.2
      rw [h1, h2]
      exact normWH_snd_le_fst _
    · intro a b c w hgt hkw hrw hpos hw hh
      rw [ht] at hw
      simp only [List.nil_append] at hw
      exact absurd (hk _ hw).2.2.1 (by intro hbad; cases hbad)
  · constructor
    · intro c w hgt hw hh
      rw [ht] at hw
      simp only [List.nil_append, List.cons_append, List.mem_cons,
        List.mem_append] at hw
      rcases hw with hbad | hbad | hw
      · cases hbad
      · cases hbad
      · exact absurd (hk _ hw).2.2.1 (by intro hbad; cases hbad)
    · intro a b c w hgt hkw hrw hpos hw hh
      rw [hkw] at ha'
      rw [hrw] at hb'
      injection ha' with ha'
      injection hb' with hb'
      subst ha'
      subst hb'
      rw [ht] at hw hh
      simp only [List.nil_append, List.cons_append, List.mem_cons,
        List.mem_append] at hw hh
      rcases hw with hbad | hbad | hw
      · cases hbad
      · cases hbad
      · rcases hh with hbad | hbad | hh
        · cases hbad
        · cases hbad
        · have h1 := (hk _ hw).2.2.2
          have h2 := (hk _ hh).2.2.2
          rw [h1, h2]
          exact (div_le_div_iff_of_pos_right hpos).2 (normWH_snd_le_fst _)

/-- C9: when both calibration parameters are present and at least one
contour is detected, a run that returns an image has drawn and labelled
the first sorted contour as the reference object, with no area
condition anywhere — the area filter applies only to the remaining
contours.  (In particular this holds when that contour's area is below
the 100 px² threshold, as the witness shows.) -/
theorem reference_drawn_without_area_check (lib : CVLib) (path : String)
    (a b : ℚ) (img : Image) (s : PState)
    (h : lib.imread path = some img)
    (hne : lib.findContours (lib.threshold (lib.gaussianBlur (lib.cvtColor img))) ≠ [])
    (hr : (measure_object lib path (some a) (some b)).result = .ok (some s)) :
    ∃ m rest,
      sortByX lib (lib.findContours
        (lib.threshold (lib.gaussianBlur (lib.cvtColor img)))) = m :: rest ∧
      refBoxesOf s.output.anns = [m] ∧
      Ann.refLabel m ∈ s.output.anns := by
  obtain ⟨img', him, haft⟩ := measure_object_ok_inv hr
  rw [h] at him
  injection him with him
  subst him
  obtain ⟨_, _, _, _, _, hcases⟩ := afterContours_ok haft
  rcases hcases with ⟨hcs, rfl⟩ | ⟨hmiss, t, ht, hk⟩ |
    ⟨a', b', m, rest, ha', hb', hbne, hsort, t, ht, hk⟩
  · exact absurd hcs hne
  · rcases hmiss with hbad | hbad <;> cases hbad
  · refine ⟨m, rest, hsort, ?_, ?_⟩
    · rw [ht]
      simp only [List.nil_append]
      unfold refBoxesOf
      rw [List.filterMap_append]
      have h2 : refBoxesOf t = [] := refBoxesOf_eq_nil hk
      unfold refBoxesOf at h2
      rw [h2]
      simp
    · rw [ht]
      simp

/-- C4: the contours are processed in ascending bounding-box-x order:
for raw contour lists at pairwise-distinct x-offsets, any permutation
of the raw list yields the same processing result, the processing
order is sorted by x, and with both calibration inputs present the
leftmost contour is the one drawn as the reference and excluded from
the measurement set. -/
theorem contours_processed_left_to_right (lib : CVLib) (kw rw : Option ℚ)
    (s0 : PState) (cs cs' : List Contour)
    (hperm : List.Perm cs cs')
    (hdist : cs.Pairwise (fun c d => bbx lib c ≠ bbx lib d)) :
    afterContours lib kw rw cs s0 = afterContours lib kw rw cs' s0 ∧
    (sortByX lib cs).Sorted (fun c d => bbx lib c ≤ bbx lib d) ∧
    (∀ a b, kw = some a → rw = some b → cs ≠ [] →
      ∃ m rest, sortByX lib cs = m :: rest ∧
        (∀ c ∈ cs, bbx lib m ≤ bbx lib c) ∧
        (∀ s, s0.output.anns = [] → afterContours lib kw rw cs s0 = .ok s →
          refBoxesOf s.output.anns = [m] ∧ m ∉ measuredOf s.output.anns)) := by
  refine ⟨?_, sortByX_sorted lib cs, ?_⟩
  · simp only [afterContours, hperm.length_eq, sortByX_eq_of_perm hperm hdist]
  · intro a b hkw hrw hne
    obtain ⟨m, rest, hsort⟩ : ∃ m rest, sortByX lib cs = m :: rest := by
      cases hs : sortByX lib cs with
      | nil =>
          have h1 : List.Perm cs (sortByX lib cs) := (sortByX_perm lib cs).symm
          rw [hs] at h1
          exact absurd h1.eq_nil hne
      | cons m rest => exact ⟨m, rest, rfl⟩
    have hsorted := sortByX_sorted lib cs
    rw [hsort] at hsorted
    have hmin : ∀ c ∈ cs, bbx lib m ≤ bbx lib c := by
      intro c hc
      have hc' : c ∈ m :: rest := by
        rw [← hsort]
        exact ((sortByX_perm lib cs).mem_iff).2 hc
      rcases List.mem_cons.1 hc' with rfl | hc''
      · exact le_refl _
      · exact (List.sorted_cons.1 hsorted).1 c hc''
    refine ⟨m, rest, hsort, hmin, ?_⟩
    intro s hs0 haft
    obtain ⟨_, _, _, _, _, hcases⟩ := afterContours_ok haft
    rcases hcases with ⟨hcs, rfl⟩ | ⟨hmiss, t, ht, hk⟩ |
      ⟨a', b', m', rest', ha', hb', hbne, hsort', t, ht, hk⟩
    · exact absurd hcs hne
    · rw [hkw] at hmiss
      rw [hrw] at hmiss
      rcases hmiss with hbad | hbad <;> cases hbad
    · rw [hsort] at hsort'
      injection hsort' with hm hrest
      subst hm
      subst hrest
      have hnotin : m ∉ rest := by
        intro hmem
        have hpair : (m :: rest).Pairwise (fun c d => bbx lib c ≠ bbx lib d) := by
          rw [← hsort]
          exact ((sortByX_perm lib cs).pairwise_iff (fun h => Ne.symm h)).2 hdist
        exact absurd rfl ((List.pairwise_cons.1 hpair).1 m hmem)
      constructor
      · rw [ht, hs0]
        simp only [List.nil_append]
        unfold refBoxesOf
        rw [List.filterMap_append]
        have h2 : refBoxesOf t = [] := refBoxesOf_eq_nil hk
        unfold refBoxesOf at h2
        rw [h2]
        simp
      · rw [ht, hs0]
        intro hmem
        simp only [List.nil_append] at hmem
        unfold measuredOf at hmem
        rw [List.filterMap_append] at hmem
        rcases List.mem_append.1 hmem with h1 | h1
        · simp [List.filterMap] at h1
        · exact absurd (measuredOf_subset hk m h1) hnotin

/-! ## Concrete runs of the pipeline on the test library -/

/-- Final state of the calibrated run `measure_object testLib "ok.jpg"
(known_width = 100) (ref_object_width_mm = 50)`: ratio 2 px/mm, the
sub-threshold leftmost contour drawn as reference, the 40×10 rectangle
reported as 20.0mm × 5.0mm and the 12×30 one as 15.0mm × 6.0mm. -/
def sCalib : PState :=
  { image := imgT, gray := [[2, 3], [4, 5]], blurred := [[4, 5], [6, 7]],
    thresh := [[0, 255], [0, 255]],
    output :=
      { base := imgT,
        anns := [.refBox cL, .refLabel cL,
                 .objBox cM, .widthLabel cM .mm 20, .heightLabel cM .mm 5,
                 .objBox cR, .widthLabel cR .mm 15, .heightLabel cR .mm 6] } }

/-- The calibrated test run evaluates to `sCalib`. -/
theorem run_calib_eval :
    (measure_object testLib "ok.jpg" (some 100) (some 50)).result =
      .ok (some sCalib) := by
  norm_num [measure_object, afterContours, processContours, drawObject,
    sortByX, testLib, bbx, normWH, draw, cL, cM, cR, imgT, sCalib,
    List.insertionSort, List.orderedInsert, Except.map, Except.bind]

/-- Final state of the uncalibrated run `measure_object testLib
"ok.jpg" none none`: pixel labels only, the area-50 contour skipped. -/
def sPx : PState :=
  { image := imgT, gray := [[2, 3], [4, 5]], blurred := [[4, 5], [6, 7]],
    thresh := [[0, 255], [0, 255]],
    output :=
      { base := imgT,
        anns := [.objBox cM, .widthLabel cM .px 40, .heightLabel cM .px 10,
                 .objBox cR, .widthLabel cR .px 30, .heightLabel cR .px 12] } }

/-- The uncalibrated test run evaluates to `sPx`. -/
theorem run_px_eval :
    (measure_object testLib "ok.jpg" none none).result = .ok (some sPx) := by
  norm_num [measure_object, afterContours, processContours, drawObject,
    sortByX, testLib, bbx, normWH, draw, cL, cM, cR, imgT, sPx,
    List.insertionSort, List.orderedInsert, Except.map, Except.bind]

/-- Final state of the run with a negative `known_width` (−100) and
`ref_object_width_mm` 50: ratio −2 px/mm, so each reported millimeter
width is smaller than the corresponding reported height. -/
def sNeg : PState :=
  { image := imgT, gray := [[2, 3], [4, 5]], blurred := [[4, 5], [6, 7]],
    thresh := [[0, 255], [0, 255]],
    output :=
      { base := imgT,
        anns := [.refBox cL, .refLabel cL,
                 .objBox cM, .widthLabel cM .mm (-20), .heightLabel cM .mm (-5),
                 .objBox cR, .widthLabel cR .mm (-15), .heightLabel cR .mm (-6)] } }

/-- The negative-calibration test run evaluates to `sNeg`. -/
theorem run_neg_eval :
    (measure_object testLib "ok.jpg" (some (-100)) (some 50)).result =
      .ok (some sNeg) := by
  norm_num [measure_object, afterContours, processContours, drawObject,
    sortByX, testLib, bbx, normWH, draw, cL, cM, cR, imgT, sNeg,
    List.insertionSort, List.orderedInsert, Except.map, Except.bind]

/-! ## Counterexamples and remaining witnesses -/

/-- Counterexample refuting C2 as stated: in the calibrated test run
the leftmost contour has area 50 < 100 px², yet a box is drawn and a
label rendered for it (as the reference object), so it appears in the
output annotation set. -/
theorem small_contour_annotated_cex :
    testLib.contourArea cL < 100 ∧
    Ann.refBox cL ∈ annsOf (measure_object testLib "ok.jpg" (some 100) (some 50)) ∧
    Ann.refLabel cL ∈ annsOf (measure_object testLib "ok.jpg" (some 100) (some 50)) := by
  refine ⟨by decide, ?_, ?_⟩ <;>
    · unfold annsOf
      rw [run_calib_eval]
      decide

/-- Witness for C2 (amended): the reference annotation on the area-50
contour is indeed a reference mark. -/
theorem small_contours_not_measured_witness :
    (measure_object testLib "ok.jpg" (some 100) (some 50)).result =
      .ok (some sCalib) ∧
    Ann.refBox cL ∈ sCalib.output.anns ∧
    testLib.contourArea (Ann.contour (Ann.refBox cL)) < 100 ∧
    (Ann.refBox cL).isRef = true :=
  ⟨run_calib_eval, by decide, by decide,
    small_contours_not_measured testLib "ok.jpg" (some 100) (some 50) sCalib
      (Ann.refBox cL) run_calib_eval (by decide) (by decide)⟩

/-- Witness for C3 at the spec's concrete numbers: `known_width = 100`,
`ref_object_width_mm = 50`, ratio exactly 2 px/mm; the 40 px-wide
rectangle's label satisfies the exact-ratio formula (its value in
`sCalib` is 20.0mm). -/
theorem mm_labels_exact_ratio_witness :
    (measure_object testLib "ok.jpg" (some 100) (some 50)).result =
      .ok (some sCalib) ∧
    ((∀ c u v, Ann.widthLabel c u v ∈ sCalib.output.anns →
        u = .mm ∧ v = (normWH (testLib.minAreaRect c)).1 / (100 / 50)) ∧
     (∀ c u v, Ann.heightLabel c u v ∈ sCalib.output.anns →
        u = .mm ∧ v = (normWH (testLib.minAreaRect c)).2 / (100 / 50))) :=
  ⟨run_calib_eval,
    mm_labels_exact_ratio testLib "ok.jpg" 100 50 sCalib run_calib_eval⟩

/-- Counterexample refuting C5 as stated: with the (unchecked) negative
calibration input `known_width = −100`, the run reports the 40×10
rectangle with width −20.0mm strictly smaller than height −5.0mm. -/
theorem width_lt_height_reported_cex :
    Ann.widthLabel cM .mm (-20) ∈
      annsOf (measure_object testLib "ok.jpg" (some (-100)) (some 50)) ∧
    Ann.heightLabel cM .mm (-5) ∈
      annsOf (measure_object testLib "ok.jpg" (some (-100)) (some 50)) ∧
    (-20 : ℚ) < -5 := by
  refine ⟨?_, ?_, by norm_num⟩ <;>
    · unfold annsOf
      rw [run_neg_eval]
      decide

/-- Witness for C5 (amended) on the calibrated run, whose ratio
100 / 50 = 2 is positive. -/
theorem width_ge_height_reported_witness :
    (measure_object testLib "ok.jpg" (some 100) (some 50)).result =
      .ok (some sCalib) ∧
    ((∀ c w hgt, Ann.widthLabel c .px w ∈ sCalib.output.anns →
        Ann.heightLabel c .px hgt ∈ sCalib.output.anns → hgt ≤ w) ∧
     (∀ a b c w hgt, some (100 : ℚ) = some a → some (50 : ℚ) = some b →
        0 < a / b →
        Ann.widthLabel c .mm w ∈ sCalib.output.anns →
        Ann.heightLabel c .mm hgt ∈ sCalib.output.anns → hgt ≤ w)) :=
  ⟨run_calib_eval,
    width_ge_height_reported testLib "ok.jpg" (some 100) (some 50) sCalib
      run_calib_eval⟩

/-- Witness for C8 on the calibrated run. -/
theorem annotations_on_copy_witness :
    testLib.imread "ok.jpg" = some imgT ∧
    (measure_object testLib "ok.jpg" (some 100) (some 50)).result =
      .ok (some sCalib) ∧
    (sCalib.image = imgT ∧ sCalib.gray = testLib.cvtColor imgT ∧
     sCalib.blurred = testLib.gaussianBlur (testLib.cvtColor imgT) ∧
     sCalib.thresh = testLib.threshold (testLib.gaussianBlur (testLib.cvtColor imgT)) ∧
     sCalib.output.base = imgT) :=
  ⟨rfl, run_calib_eval,
    annotations_on_copy testLib "ok.jpg" (some 100) (some 50) imgT sCalib rfl
      run_calib_eval⟩

/-- Witness for C9: the reference contour of the calibrated run is the
leftmost one, with area 50 — below the noise threshold — and it is
still drawn and labelled. -/
theorem reference_drawn_without_area_check_witness :
    testLib.imread "ok.jpg" = some imgT ∧
    testLib.findContours
      (testLib.threshold (testLib.gaussianBlur (testLib.cvtColor imgT))) ≠ [] ∧
    (measure_object testLib "ok.jpg" (some 100) (some 50)).result =
      .ok (some sCalib) ∧
    testLib.contourArea cL < 100 ∧
    (∃ m rest,
      sortByX testLib (testLib.findContours
        (testLib.threshold (testLib.gaussianBlur (testLib.cvtColor imgT)))) =
          m :: rest ∧
      refBoxesOf sCalib.output.anns = [m] ∧
      Ann.refLabel m ∈ sCalib.output.anns) :=
  ⟨rfl, by decide, run_calib_eval, by decide,
    reference_drawn_without_area_check testLib "ok.jpg" 100 50 imgT sCalib rfl
      (by decide) run_calib_eval⟩

/-- Initial pipeline state for the test image, as built by
`measure_object` before annotation. -/
def s0T : PState :=
  { image := imgT, gray := [[2, 3], [4, 5]], blurred := [[4, 5], [6, 7]],
    thresh := [[0, 255], [0, 255]],
    output := { base := imgT, anns := [] } }

/-- Witness for C4: the three test contours at distinct x-offsets, in
two different raw orders. -/
theorem contours_processed_left_to_right_witness :
    List.Perm [cM, cL, cR] [cR, cM, cL] ∧
    ([cM, cL, cR].Pairwise (fun c d => bbx testLib c ≠ bbx testLib d)) ∧
    (afterContours testLib (some 100) (some 50) [cM, cL, cR] s0T =
       afterContours testLib (some 100) (some 50) [cR, cM, cL] s0T ∧
     (sortByX testLib [cM, cL, cR]).Sorted
       (fun c d => bbx testLib c ≤ bbx testLib d) ∧
     (∀ a b, some (100 : ℚ) = some a → some (50 : ℚ) = some b →
        [cM, cL, cR] ≠ [] →
        ∃ m rest, sortByX testLib [cM, cL, cR] = m :: rest ∧
          (∀ c ∈ [cM, cL, cR], bbx testLib m ≤ bbx testLib c) ∧
          (∀ s, s0T.output.anns = [] →
            afterContours testLib (some 100) (some 50) [cM, cL, cR] s0T = .ok s →
            refBoxesOf s.output.anns = [m] ∧ m ∉ measuredOf s.output.anns))) :=
  ⟨by decide, by decide,
    contours_processed_left_to_right testLib (some 100) (some 50) s0T
      [cM, cL, cR] [cR, cM, cL] (by decide) (by decide)⟩

end Ruler
